import Mathlib

/-!
Verification of the `up_local playlists` plugin
(`src/ultrasonics/official_plugins/up_local playlists.py`).

The development is a shallow embedding of the plugin into Lean.  Strings are
modelled as `List Char` so that the Python string primitives used by the code
(`str.replace`, `str.lstrip`, `str.rstrip`, `str.startswith`, `str.splitlines`,
`os.path.join`, `os.path.splitext`, `re.sub`) can be given faithful executable
definitions.  The filesystem, the two external collaborators
(`ultrasonics.tools.name_filter` and `ultrasonics.tools.local_tags`) and the
failure behaviour of the filesystem calls made by the Backup Manager are
modelled as explicit parameters, since their code is outside this repository.
The platform is modelled as POSIX (`os.name` is not `"nt"`), which fixes the
behaviour of `os.path.join` and of the `unix` flag inside `convert_path`.
-/

abbrev Str := List Char

/-- Python `a.startswith(pat)` on the `List Char` model. -/
def isPre : Str → Str → Bool
  | [], _ => true
  | _ :: _, [] => false
  | a :: as, b :: bs => a == b && isPre as bs

/-- Whether `pat` occurs anywhere in `s` as a contiguous substring. -/
def hasSubstr (pat : Str) : Str → Bool
  | [] => pat.isEmpty
  | c :: rest => isPre pat (c :: rest) || hasSubstr pat rest

/-- Fuel-driven core of Python `s.replace(pat, "")`: scans left to right and
removes every non-overlapping occurrence of `pat`.  The fuel is the length of
the scanned string; each step consumes at least one character, so
`replaceAll` below always supplies enough fuel. -/
def replaceAllAux (pat : Str) : Nat → Str → Str
  | _, [] => []
  | 0, s => s
  | fuel + 1, c :: rest =>
    if pat ≠ [] ∧ isPre pat (c :: rest) then
      replaceAllAux pat fuel (rest.drop (pat.length - 1))
    else c :: replaceAllAux pat fuel rest

/-- Python `s.replace(pat, "")` for a non-empty `pat` (the plugin only calls
`replace` on a prepend that it has checked to be truthy). -/
def replaceAll (pat s : Str) : Str := replaceAllAux pat s.length s

/-- Python `s.lstrip("/")` followed by `s.lstrip("\\")`, exactly as chained in
`remove_prepend`: first all leading slashes are removed, then all leading
backslashes of what remains. -/
def stripSeps (s : Str) : Str := (s.dropWhile (· == '/')).dropWhile (· == '\\')

/-- Python `s.rstrip(ch)` for a single strip character. -/
def rstripChar (ch : Char) (s : Str) : Str := (s.reverse.dropWhile (· == ch)).reverse

/-- `settings_dict["dir"].rstrip("/").rstrip("\\")` from `run`. -/
def rstrip2 (s : Str) : Str := rstripChar '\\' (rstripChar '/' s)

/-- Python `str.splitlines` restricted to `\n` separators: no entry for the
final trailing newline, empty interior lines preserved. -/
def splitlines : Str → List Str
  | [] => []
  | c :: rest =>
    if c = '\n' then [] :: splitlines rest
    else
      match splitlines rest with
      | [] => [[c]]
      | l :: ls => (c :: l) :: ls

/-- `posixpath.join(a, b)` for two components, as executed by `os.path.join`
on the modelled POSIX platform. -/
def osJoin (a b : Str) : Str :=
  if isPre "/".data b then b
  else if a = [] then b
  else if a.getLast? = some '/' then a ++ b
  else a ++ '/' :: b

/-- `posixpath.splitext`: split off the extension at the last dot of the
basename, ignoring leading dots of the basename. -/
def splitExt (s : Str) : Str × Str :=
  let revAll := s.reverse
  let base := (revAll.takeWhile (· != '/')).reverse
  let dir := (revAll.dropWhile (· != '/')).reverse
  let lead := base.takeWhile (· == '.')
  let rest := base.dropWhile (· == '.')
  let rrev := rest.reverse
  let extRev := rrev.takeWhile (· != '.')
  if extRev.length = rrev.length then (s, [])
  else (dir ++ lead ++ (rrev.drop (extRev.length + 1)).reverse, '.' :: extRev.reverse)

/-- The characters matched by the character class of the sanitising regex
`"[\\/:*?|<>]+[ ]*"` in `run`.  Note that in the Python source this string
literal denotes the pattern `[\/:*?|<>]+[ ]*`, whose class escapes the slash;
a literal backslash is NOT in the class. -/
def isIllegalChar (c : Char) : Bool :=
  ['/', ':', '*', '?', '|', '<', '>'].contains c

/-- Fuel-driven core of `re.sub("[\\/:*?|<>]+[ ]*", "", name)`: at each match
position the regex greedily consumes a maximal run of class characters and
then a maximal run of spaces; other characters are copied. -/
def sanitizeAux : Nat → Str → Str
  | _, [] => []
  | 0, s => s
  | fuel + 1, c :: rest =>
    if isIllegalChar c then
      sanitizeAux fuel ((rest.dropWhile isIllegalChar).dropWhile (· == ' '))
    else c :: sanitizeAux fuel rest

/-- `re.sub("[\\/:*?|<>]+[ ]*", "", name)` from the outputs branch of `run`. -/
def sanitizeName (s : Str) : Str := sanitizeAux s.length s

/-- Python `b.replace("-", "")` applied to a backup directory name. -/
def dashStrip (s : Str) : Str := s.filter (fun c => !(c == '-'))

/-- Python string comparison (`min` over `str`): lexicographic by code point,
a strict prefix comparing smaller. -/
def strLt : Str → Str → Bool
  | [], [] => false
  | [], _ :: _ => true
  | _ :: _, [] => false
  | a :: as, b :: bs => if a = b then strLt as bs else decide (a < b)

/-- Index and value of the first minimal element of a list of strings, i.e.
Python `l.index(min(l))` paired with `min(l)`. -/
def minWithIdx : List Str → Option (Nat × Str)
  | [] => none
  | x :: rest =>
    match minWithIdx rest with
    | none => some (0, x)
    | some (j, m) => if strLt m x then some (j + 1, m) else some (0, x)

/-- The `while len(backups) > retention` prune loop of `backup_playlists`:
repeatedly delete the entry whose dash-stripped name is smallest.  The fuel is
the initial list length; each iteration deletes exactly one entry, so the fuel
never runs out before the loop condition fails. -/
def pruneAux (retention : Nat) : Nat → List Str → List Str
  | 0, backups => backups
  | fuel + 1, backups =>
    if backups.length ≤ retention then backups
    else
      match minWithIdx (backups.map dashStrip) with
      | none => backups
      | some (j, _) => pruneAux retention fuel (backups.eraseIdx j)

/-- The prune loop started on a listing of the backup directory. -/
def pruneBackups (retention : Nat) (backups : List Str) : List Str :=
  pruneAux retention backups.length backups

/-- The configuration read from `database` in `run`. -/
structure DB where
  local_prepend : Str
  ultrasonics_prepend : Str
deriving DecidableEq

/-- The user settings consumed by `run` (`dir`, `recursive`, `filter`,
`retention`). -/
structure Settings where
  dir : Str
  recursive : Str
  filter : Str
  retention : Str
deriving DecidableEq

/-- A song dictionary: the optional `location` key plus the remaining tag
fields, which this engine never inspects. -/
structure SongRecord where
  location : Option Str
  tags : List (Str × Str)
deriving DecidableEq

/-- One `songs_dict` entry: `{"name": .., "id": .., "songs": ..}`. -/
structure Playlist where
  name : Str
  id : List (Str × Str)
  songs : List SongRecord
deriving DecidableEq

/-- One catalog entry built by the directory scan in `run`. -/
structure PlaylistRef where
  name : Str
  path : Str
deriving DecidableEq

/-- The filesystem as seen by the scan and read pipelines:
`listing` is the outcome of `os.listdir(path)` (`none` models the raised
`OSError`), `walk` the `(dirpath, filenames)` pairs yielded by
`os.walk(path)` (an empty list for a missing root, since `os.walk` swallows
errors by default), `isfile` is `os.path.isfile`, and `readFile` is
`io.open(p).read()` (`none` models a raised IO error). -/
structure SrcFS where
  listing : Option (List Str)
  walk : List (Str × List Str)
  isfile : Str → Bool
  readFile : Str → Option Str

/-- An opaque OS-level error carried by a raised filesystem exception. -/
structure FsError where
  code : Nat
deriving DecidableEq

/-- The exceptions that can escape (or abort parts of) `run`. -/
inductive RunError
  | unboundLocal
  | ioError
  | keyError
  | fsError (e : FsError)
deriving DecidableEq

/-- The outcome of one call to the metadata extractor
`local_tags.tags(song_path)`: a song dictionary, a raised
`NotImplementedError`, or any other raised exception. -/
inductive ExtractResult
  | ok (song : SongRecord)
  | notImplemented
  | genericError (msg : Str)

/-- `remove_prepend(path, invert)` from `run`: replace every occurrence of
the configured prepend with the empty string, then `lstrip("/")`, then
`lstrip("\\")`; with an unconfigured (empty) prepend the path is returned
unchanged. -/
def remove_prepend (db : DB) (invert : Bool) (path : Str) : Str :=
  if invert = false then
    if db.local_prepend ≠ [] then stripSeps (replaceAll db.local_prepend path)
    else path
  else
    if db.ultrasonics_prepend ≠ [] then stripSeps (replaceAll db.ultrasonics_prepend path)
    else path

/-- `convert_path(path, invert)` from `run` on the modelled POSIX platform:
when conversion is enabled, rewrite every separator to the target style
(`unix` is true by default and flipped by `invert`). -/
def convert_path (enable : Bool) (invert : Bool) (path : Str) : Str :=
  if enable then
    let unix := if invert then false else true
    if unix then path.map (fun c => if c = '\\' then '/' else c)
    else path.map (fun c => if c = '/' then '\\' else c)
  else path

/-- `enable_convert_path` as computed in `run`: the prepends disagree on
whether they start with `/`. -/
def enableConvert (db : DB) : Bool :=
  (isPre "/".data db.ultrasonics_prepend) != (isPre "/".data db.local_prepend)

/-- The supported playlist extension list of the module. -/
def supported_playlist_extensions : List Str := [".m3u".data]

/-- The catalog-building scan of `run`: list (or walk) the playlist root,
derive each name with `splitext`, and keep only entries with a supported
extension.  A raised listing error is caught and logged, leaving the catalog
empty. -/
def scanCatalog (fs : SrcFS) (root : Str) (recursive : Bool) : List PlaylistRef :=
  let all :=
    if recursive then
      (fs.walk.map (fun rf =>
        rf.2.map (fun item => PlaylistRef.mk (splitExt item).1 (osJoin rf.1 item)))).flatten
    else
      match fs.listing with
      | none => []
      | some items => items.map (fun item => PlaylistRef.mk (splitExt item).1 (osJoin root item))
  all.filter (fun pl => supported_playlist_extensions.contains (splitExt pl.path).2)

/-- The per-playlist mutable state of the read loop: `temp` is the
`temp_song_dict` local variable of `run` (which survives across loop
iterations and across playlists; `none` means it has never been assigned),
`songs` the `songs` list of the current playlist entry. -/
structure ReadState where
  temp : Option SongRecord
  songs : List SongRecord
deriving DecidableEq

/-- One iteration of the `for song in songs` read loop of `run`:
skip `#` lines, translate the path, skip entries whose resolved path is not a
file, then extract tags.  `NotImplementedError` skips the entry; any other
extractor exception falls through WITHOUT a `continue` (as in the source), so
the previous `temp_song_dict` is appended again, or an `UnboundLocalError` is
raised when no assignment has happened yet. -/
def processLine (fs : SrcFS) (tags : Str → ExtractResult) (db : DB) (enable : Bool)
    (st : ReadState) (line : Str) : Except RunError ReadState :=
  if isPre "#".data line then .ok st
  else
    let p1 := remove_prepend db false line
    let p2 := convert_path enable false p1
    let song_path := osJoin db.ultrasonics_prepend p2
    if fs.isfile song_path then
      match tags song_path with
      | .ok r => .ok ⟨some r, st.songs ++ [r]⟩
      | .notImplemented => .ok st
      | .genericError _ =>
        match st.temp with
        | none => .error .unboundLocal
        | some r => .ok ⟨st.temp, st.songs ++ [r]⟩
    else .ok st

/-- The read loop of `run` over the lines of one playlist file. -/
def processLines (fs : SrcFS) (tags : Str → ExtractResult) (db : DB) (enable : Bool) :
    ReadState → List Str → Except RunError ReadState
  | st, [] => .ok st
  | st, l :: ls =>
    match processLine fs tags db enable st l with
    | .error e => .error e
    | .ok st2 => processLines fs tags db enable st2 ls

/-- The `for playlist in playlists` loop of the inputs branch of `run`:
read each playlist file (a raised IO error propagates), process its lines, and
collect one `songs_dict` entry per playlist.  The `temp` component threads the
`temp_song_dict` variable across playlists. -/
def runInputsAux (fs : SrcFS) (tags : Str → ExtractResult) (db : DB) (enable : Bool) :
    Option SongRecord → List PlaylistRef → Except RunError (List Playlist)
  | _, [] => .ok []
  | temp, pl :: rest =>
    match fs.readFile pl.path with
    | none => .error .ioError
    | some content =>
      match processLines fs tags db enable ⟨temp, []⟩ (splitlines content) with
      | .error e => .error e
      | .ok st =>
        match runInputsAux fs tags db enable st.temp rest with
        | .error e => .error e
        | .ok ps => .ok (Playlist.mk pl.name [] st.songs :: ps)

/-- `run` with `component == "inputs"`.  The external name filter
(`ultrasonics.tools.name_filter.filter_list`) and metadata extractor
(`ultrasonics.tools.local_tags.tags`) are parameters, since their code lives
outside this repository. -/
def runInputs (fs : SrcFS) (tags : Str → ExtractResult)
    (nameFilter : List Str → Str → List Str) (db : DB) (settings : Settings) :
    Except RunError (List Playlist) :=
  let root := rstrip2 settings.dir
  let enable := enableConvert db
  let catalog := scanCatalog fs root (settings.recursive == "Yes".data)
  let titles := nameFilter (catalog.map (·.name)) settings.filter
  let chosen := catalog.filter (fun pl => titles.contains pl.name)
  runInputsAux fs tags db enable none chosen

/-- Outcome of `os.makedirs(os.path.dirname(backup_dir))`: success, a raised
`FileExistsError`, or any other raised `OSError`. -/
inductive MkdirResult
  | ok
  | fileExists
  | failed (e : FsError)
deriving DecidableEq

/-- The parts of the world that `backup_playlists` interacts with:
the outcome of its `makedirs` call, the snapshot directories already under
`backup_dir`, the outcome of `shutil.copytree` (would it raise if called),
the outcome of the first `shutil.rmtree` call of the prune loop (would it
raise if called), and the timestamp string `runtime` for the new snapshot. -/
structure BackupWorld where
  mkdirResult : MkdirResult
  snapshots : List Str
  copyResult : Option FsError
  rmtreeFail : Option FsError
  runtime : Str

/-- `retention_dict[settings_dict["retention"]]`; `none` models the raised
`KeyError` for a value outside the radio options. -/
def retentionOf (s : Str) : Option Nat :=
  if s = "No Backups".data then some 0
  else if s = "3 Backups".data then some 3
  else if s = "5 Backups".data then some 5
  else if s = "10 Backups".data then some 10
  else none

/-- `backup_playlists()` from `run`: create the backup root (swallowing only
`FileExistsError`), copy the playlist root into a new timestamped snapshot
when the retention level is positive, then prune oldest-first while the
snapshot count exceeds the retention level.  Returns the final snapshot
listing; every uncaught exception propagates as an error. -/
def backup_playlists (w : BackupWorld) (retentionSetting : Str) :
    Except RunError (List Str) :=
  match w.mkdirResult with
  | .failed e => .error (.fsError e)
  | _ =>
    match retentionOf retentionSetting with
    | none => .error .keyError
    | some retention =>
      let afterCopy : Except RunError (List Str) :=
        if 0 < retention then
          match w.copyResult with
          | some e => .error (.fsError e)
          | none => .ok (w.snapshots ++ [w.runtime])
        else .ok w.snapshots
      match afterCopy with
      | .error e => .error e
      | .ok backups =>
        if backups.length ≤ retention then .ok backups
        else
          match w.rmtreeFail with
          | some e => .error (.fsError e)
          | none => .ok (pruneBackups retention backups)

/-- The effect of one successful `backup_playlists` call on the snapshot
listing: append the new timestamped snapshot when retention is positive, then
prune. -/
def backupSnapshotStep (retention : Nat) (t : Str) (snaps : List Str) : List Str :=
  pruneBackups retention (if 0 < retention then snaps ++ [t] else snaps)

/-- Lookup of a playlist file: the written files are modelled as an
association list in which the most recent write of a path shadows older
entries. -/
def fsGet (files : List (Str × Str)) (p : Str) : Option Str :=
  (files.find? (fun e => e.1 == p)).map (·.2)

/-- `io.open(p, "w")` followed by writing `c` and closing: the new content
fully replaces any previous content of `p`. -/
def setFile (files : List (Str × Str)) (p c : Str) : List (Str × Str) :=
  (p, c) :: files

/-- The path written for one song in the outputs branch of `run`:
strip the ultrasonics prepend from `location`, separator-convert the local
prepend, join, and convert the joined path back to the local style. -/
def renderLine (db : DB) (enable : Bool) (loc : Str) : Str :=
  let p1 := remove_prepend db true loc
  let pc := convert_path enable false db.local_prepend
  convert_path enable true (osJoin pc p1)

/-- The full text written for one playlist: the `for song in songs` loop of
the outputs branch, writing `song_path + "\n"` for every song that has a
`location` key and skipping the rest. -/
def renderContent (db : DB) (enable : Bool) (songs : List SongRecord) : Str :=
  songs.foldl
    (fun acc s =>
      match s.location with
      | none => acc
      | some loc => acc ++ (renderLine db enable loc ++ ['\n'])) []

/-- The `for item in songs_dict` loop of the outputs branch: sanitize the
name in place, open the existing playlist with the same name (first catalog
match) or a new `root/name.m3u`, and write the rendered content.  Returns the
final file state and the mutated `songs_dict`. -/
def writeLoop (db : DB) (enable : Bool) (catalog : List PlaylistRef) (root : Str) :
    List (Str × Str) → List Playlist → List (Str × Str) × List Playlist
  | files, [] => (files, [])
  | files, item :: rest =>
    let name2 := sanitizeName item.name
    let target :=
      match catalog.find? (fun c => c.name == name2) with
      | some c => c.path
      | none => osJoin root (name2 ++ ".m3u".data)
    let rec2 := writeLoop db enable catalog root
      (setFile files target (renderContent db enable item.songs)) rest
    (rec2.1, { item with name := name2 } :: rec2.2)

/-- The observable outcome of a sink-mode run: the playlist file state, the
snapshot listing produced by the Backup Manager (or the propagated error that
aborted the run), and the caller-visible `songs_dict` (mutated in place by
the write loop once the backup has succeeded). -/
structure SinkOutcome where
  files : List (Str × Str)
  backup : Except RunError (List Str)
  songs : List Playlist

/-- `run` with `component == "outputs"`: back up the playlist root first
(any propagated exception aborts the run before a single playlist file is
written), then synchronise every incoming playlist to disk. -/
def runOutputs (w : BackupWorld) (fs : SrcFS) (files0 : List (Str × Str))
    (db : DB) (settings : Settings) (songs_dict : List Playlist) : SinkOutcome :=
  let root := rstrip2 settings.dir
  let enable := enableConvert db
  let catalog := scanCatalog fs root (settings.recursive == "Yes".data)
  match backup_playlists w settings.retention with
  | .error e => SinkOutcome.mk files0 (.error e) songs_dict
  | .ok snaps =>
    let res := writeLoop db enable catalog root files0 songs_dict
    SinkOutcome.mk res.1 (.ok snaps) res.2

/-- Modelled from the spec: `stripPrefix(path, convention)` as worded in the
specification, removing the configured prefix only as a single leading
occurrence before stripping leading separators; an empty prefix is a no-op.
Used solely to compare the specified contract with `remove_prepend`. -/
def stripPrefix_spec (prepend path : Str) : Str :=
  if prepend = [] then path
  else stripSeps (if isPre prepend path then path.drop prepend.length else path)

/-- Modelled from the spec: `addPrefix(p, L)` from testable property 1,
prepending the convention prefix to a path fragment. -/
def addPrefix (p L : Str) : Str := L ++ p

/-! ### Helper lemmas about the string primitives -/

theorem isPre_append (L p : Str) : isPre L (L ++ p) = true := by
  induction L with
  | nil => rfl
  | cons a as ih => simp [isPre, ih]

theorem hasSubstr_cons_false {pat : Str} {c : Char} {rest : Str}
    (h : hasSubstr pat (c :: rest) = false) :
    isPre pat (c :: rest) = false ∧ hasSubstr pat rest = false := by
  simpa [hasSubstr] using h

theorem replaceAllAux_no_occ (pat : Str) :
    ∀ (fuel : Nat) (s : Str), s.length ≤ fuel → hasSubstr pat s = false →
      replaceAllAux pat fuel s = s := by
  intro fuel
  induction fuel with
  | zero =>
    intro s hlen _
    cases s with
    | nil => rfl
    | cons c rest => simp at hlen
  | succ f ih =>
    intro s hlen hsub
    cases s with
    | nil => rfl
    | cons c rest =>
      obtain ⟨h1, h2⟩ := hasSubstr_cons_false hsub
      have hcond : ¬ (pat ≠ [] ∧ isPre pat (c :: rest) = true) := by
        rintro ⟨-, h⟩
        rw [h1] at h
        exact Bool.false_ne_true h
      simp only [replaceAllAux, if_neg hcond]
      have : rest.length ≤ f := by
        simp only [List.length_cons] at hlen
        omega
      rw [ih rest this h2]

theorem replaceAll_no_occ (pat s : Str) (h : hasSubstr pat s = false) :
    replaceAll pat s = s :=
  replaceAllAux_no_occ pat s.length s (Nat.le_refl _) h

theorem replaceAll_append_self (pat p : Str) (hne : pat ≠ [])
    (hsub : hasSubstr pat p = false) :
    replaceAll pat (pat ++ p) = p := by
  cases pat with
  | nil => exact absurd rfl hne
  | cons a as =>
    show replaceAllAux (a :: as) ((a :: as) ++ p).length ((a :: as) ++ p) = p
    have hlen : ((a :: as) ++ p).length = (as ++ p).length + 1 := by
      simp
    rw [hlen]
    have hcond : (a :: as) ≠ [] ∧ isPre (a :: as) (a :: (as ++ p)) = true :=
      ⟨hne, isPre_append (a :: as) p⟩
    simp only [List.cons_append, replaceAllAux, List.append_eq]
    rw [if_pos hcond]
    have hdrop : (as ++ p).drop ((a :: as).length - 1) = p := by
      simp only [List.length_cons, Nat.add_sub_cancel]
      exact List.drop_left as p
    rw [hdrop]
    exact replaceAllAux_no_occ (a :: as) (as ++ p).length p (by simp) hsub

theorem stripSeps_no_sep (p : Str) (h1 : p.head? ≠ some '/') (h2 : p.head? ≠ some '\\') :
    stripSeps p = p := by
  cases p with
  | nil => rfl
  | cons c rest =>
    simp only [List.head?_cons, ne_eq, Option.some.injEq] at h1 h2
    have e1 : (c == '/') = false := by simpa using h1
    have e2 : (c == '\\') = false := by simpa using h2
    simp [stripSeps, List.dropWhile_cons, e1, e2]

/-! ### Helper lemmas about the prune loop -/

theorem strLt_asymm : ∀ a b : Str, strLt a b = true → strLt b a = false := by
  intro a
  induction a with
  | nil =>
    intro b h
    cases b with
    | nil => simp [strLt] at h
    | cons c bs => rfl
  | cons c as ih =>
    intro b h
    cases b with
    | nil => simp [strLt] at h
    | cons d bs =>
      by_cases hcd : c = d
      · subst hcd
        simp only [strLt, if_pos rfl] at h ⊢
        exact ih bs h
      · simp only [strLt, if_neg hcd, decide_eq_true_eq] at h
        simp only [strLt, if_neg (Ne.symm hcd), decide_eq_false_iff_not]
        exact lt_asymm h

theorem minWithIdx_none {l : List Str} (h : minWithIdx l = none) : l = [] := by
  cases l with
  | nil => rfl
  | cons x rest =>
    simp only [minWithIdx] at h
    rcases hm : minWithIdx rest with - | ⟨j, m⟩ <;> rw [hm] at h
    · exact absurd h (by simp)
    · by_cases hlt : strLt m x = true <;> simp [hlt] at h

theorem minWithIdx_lt_length :
    ∀ (l : List Str) (j : Nat) (m : Str), minWithIdx l = some (j, m) → j < l.length := by
  intro l
  induction l with
  | nil => intro j m h; simp [minWithIdx] at h
  | cons x rest ih =>
    intro j m h
    simp only [minWithIdx] at h
    rcases hm : minWithIdx rest with - | ⟨j2, m2⟩ <;> rw [hm] at h
    · simp only [Option.some.injEq, Prod.mk.injEq] at h
      simp only [List.length_cons]
      omega
    · by_cases hlt : strLt m2 x = true
      · simp only [if_pos hlt, Option.some.injEq, Prod.mk.injEq] at h
        have := ih j2 m2 hm
        simp only [List.length_cons]
        omega
      · simp only [if_neg hlt, Option.some.injEq, Prod.mk.injEq] at h
        simp only [List.length_cons]
        omega

theorem minWithIdx_sorted :
    ∀ (x : Str) (l : List Str),
      (x :: l).Pairwise (fun a b => strLt a b = true) →
      minWithIdx (x :: l) = some (0, x) := by
  intro x l
  induction l generalizing x with
  | nil => intro _; rfl
  | cons y l2 ih =>
    intro hp
    have htail : (y :: l2).Pairwise (fun a b => strLt a b = true) :=
      (List.pairwise_cons.mp hp).2
    have hxy : strLt x y = true :=
      (List.pairwise_cons.mp hp).1 y (by simp)
    have hyx : strLt y x = false := strLt_asymm x y hxy
    show (match minWithIdx (y :: l2) with
          | none => some (0, x)
          | some (j, m) => if strLt m x then some (j + 1, m) else some (0, x)) = some (0, x)
    rw [ih y htail]
    simp [hyx]

theorem pruneAux_zero :
    ∀ (fuel : Nat) (l : List Str), l.length ≤ fuel → pruneAux 0 fuel l = [] := by
  intro fuel
  induction fuel with
  | zero =>
    intro l hlen
    have : l = [] := List.length_eq_zero.mp (Nat.le_zero.mp hlen)
    subst this
    rfl
  | succ f ih =>
    intro l hlen
    cases hl : l with
    | nil => rfl
    | cons x rest =>
      subst hl
      have hne : ¬ ((x :: rest).length ≤ 0) := by simp
      rcases hm : minWithIdx ((x :: rest).map dashStrip) with - | ⟨j, m⟩
      · have := minWithIdx_none hm
        simp at this
      · have hj : j < rest.length + 1 := by
          have h3 := minWithIdx_lt_length (List.map dashStrip (x :: rest)) j m hm
          simp only [List.length_map, List.length_cons] at h3
          exact h3
        have herase : ((x :: rest).eraseIdx j).length = rest.length := by
          rw [List.length_eraseIdx]
          simp [hj]
        simp only [pruneAux, if_neg hne, hm]
        apply ih
        rw [herase]
        simp only [List.length_cons] at hlen
        omega

theorem pruneBackups_noop (r : Nat) (l : List Str) (h : l.length ≤ r) :
    pruneBackups r l = l := by
  cases l with
  | nil => rfl
  | cons x rest =>
    show pruneAux r (x :: rest).length (x :: rest) = x :: rest
    rw [List.length_cons]
    simp only [pruneAux]
    rw [if_pos (by simpa using h)]

theorem pruneAux_sorted :
    ∀ (fuel : Nat) (l : List Str) (r : Nat), l.length ≤ fuel →
      l.Pairwise (fun a b => strLt (dashStrip a) (dashStrip b) = true) →
      pruneAux r fuel l = l.drop (l.length - r) := by
  intro fuel
  induction fuel with
  | zero =>
    intro l r hlen _
    have : l = [] := List.length_eq_zero.mp (Nat.le_zero.mp hlen)
    subst this
    simp [pruneAux]
  | succ f ih =>
    intro l r hlen hsort
    by_cases hle : l.length ≤ r
    · have hz : l.length - r = 0 := Nat.sub_eq_zero_of_le hle
      rw [hz, List.drop_zero]
      cases l with
      | nil => simp [pruneAux]
      | cons x rest =>
        simp only [pruneAux]
        rw [if_pos hle]
    · cases l with
      | nil => exact absurd (by simp) hle
      | cons x rest =>
        have hmap : ((x :: rest).map dashStrip).Pairwise (fun a b => strLt a b = true) := by
          rw [List.pairwise_map]
          exact hsort
        have hmin : minWithIdx (dashStrip x :: rest.map dashStrip) = some (0, dashStrip x) :=
          minWithIdx_sorted (dashStrip x) (rest.map dashStrip) (by simpa using hmap)
        have htail : rest.Pairwise (fun a b => strLt (dashStrip a) (dashStrip b) = true) :=
          (List.pairwise_cons.mp hsort).2
        have hlen2 : rest.length ≤ f := by
          simp only [List.length_cons] at hlen
          omega
        simp only [pruneAux, if_neg hle, List.map_cons, hmin]
        show pruneAux r f rest = (x :: rest).drop ((x :: rest).length - r)
        rw [ih rest r hlen2 htail]
        have harith : (x :: rest).length - r = (rest.length - r) + 1 := by
          simp only [List.length_cons] at hle ⊢
          omega
        rw [harith, List.drop_succ_cons]

theorem pruneBackups_sorted (l : List Str) (r : Nat)
    (hsort : l.Pairwise (fun a b => strLt (dashStrip a) (dashStrip b) = true)) :
    pruneBackups r l = l.drop (l.length - r) :=
  pruneAux_sorted l.length l r (Nat.le_refl _) hsort

/-! ### Helper lemmas about the Backup Manager and the write pipeline -/

theorem backup_playlists_benign (w : BackupWorld) (s : Str) (r : Nat)
    (hm : w.mkdirResult = .ok ∨ w.mkdirResult = .fileExists)
    (hr : retentionOf s = some r) (hc : w.copyResult = none) (hd : w.rmtreeFail = none) :
    backup_playlists w s = .ok (backupSnapshotStep r w.runtime w.snapshots) := by
  obtain ⟨mk, snaps, cr, rf, rt⟩ := w
  simp only at hm hc hd
  subst hc hd
  have hbody :
      (match retentionOf s with
        | none => (.error .keyError : Except RunError (List Str))
        | some retention =>
          let afterCopy : Except RunError (List Str) :=
            if 0 < retention then
              match (none : Option FsError) with
              | some e => .error (.fsError e)
              | none => .ok (snaps ++ [rt])
            else .ok snaps
          match afterCopy with
          | .error e => .error e
          | .ok backups =>
            if backups.length ≤ retention then .ok backups
            else
              match (none : Option FsError) with
              | some e => .error (.fsError e)
              | none => .ok (pruneBackups retention backups)) =
        .ok (backupSnapshotStep r rt snaps) := by
    rw [hr]
    by_cases hpos : 0 < r
    · simp only [if_pos hpos, backupSnapshotStep]
      by_cases hlen : (snaps ++ [rt]).length ≤ r
      · simp [hlen, pruneBackups_noop r _ hlen]
      · have hlen2 : ¬ (snaps.length + 1 ≤ r) := by simpa using hlen
        simp [hlen2]
    · simp only [if_neg hpos, backupSnapshotStep]
      by_cases hlen : snaps.length ≤ r
      · simp [hpos, hlen, pruneBackups_noop r _ hlen]
      · simp [hpos, hlen]
  rcases hm with h | h <;> subst h <;> exact hbody

theorem backup_playlists_copy_fail (w : BackupWorld) (s : Str) (r : Nat) (e : FsError)
    (hm : w.mkdirResult = .ok ∨ w.mkdirResult = .fileExists)
    (hr : retentionOf s = some r) (hpos : 0 < r) (hc : w.copyResult = some e) :
    backup_playlists w s = .error (.fsError e) := by
  obtain ⟨mk, snaps, cr, rf, rt⟩ := w
  simp only at hm hc
  subst hc
  have hbody :
      (match retentionOf s with
        | none => (.error .keyError : Except RunError (List Str))
        | some retention =>
          let afterCopy : Except RunError (List Str) :=
            if 0 < retention then
              match (some e : Option FsError) with
              | some e => .error (.fsError e)
              | none => .ok (snaps ++ [rt])
            else .ok snaps
          match afterCopy with
          | .error e => .error e
          | .ok backups =>
            if backups.length ≤ retention then .ok backups
            else
              match rf with
              | some e => .error (.fsError e)
              | none => .ok (pruneBackups retention backups)) =
        .error (.fsError e) := by
    rw [hr]
    simp [if_pos hpos]
  rcases hm with h | h <;> subst h <;> exact hbody

theorem backup_playlists_rmtree_fail (w : BackupWorld) (s : Str) (r : Nat) (e : FsError)
    (hm : w.mkdirResult = .ok ∨ w.mkdirResult = .fileExists)
    (hr : retentionOf s = some r) (hc : w.copyResult = none) (hd : w.rmtreeFail = some e)
    (hcount : r < (if 0 < r then w.snapshots.length + 1 else w.snapshots.length)) :
    backup_playlists w s = .error (.fsError e) := by
  obtain ⟨mk, snaps, cr, rf, rt⟩ := w
  simp only at hm hc hd hcount
  subst hc hd
  have hbody :
      (match retentionOf s with
        | none => (.error .keyError : Except RunError (List Str))
        | some retention =>
          let afterCopy : Except RunError (List Str) :=
            if 0 < retention then
              match (none : Option FsError) with
              | some e2 => .error (.fsError e2)
              | none => .ok (snaps ++ [rt])
            else .ok snaps
          match afterCopy with
          | .error e2 => .error e2
          | .ok backups =>
            if backups.length ≤ retention then .ok backups
            else
              match (some e : Option FsError) with
              | some e2 => .error (.fsError e2)
              | none => .ok (pruneBackups retention backups)) =
        .error (.fsError e) := by
    rw [hr]
    by_cases hpos : 0 < r
    · rw [if_pos hpos] at hcount
      have hlen2 : ¬ (snaps.length + 1 ≤ r) := by omega
      simp [if_pos hpos, hlen2]
    · rw [if_neg hpos] at hcount
      have hlen : ¬ (snaps.length ≤ r) := by omega
      simp [if_neg hpos, hlen]
  rcases hm with h | h <;> subst h <;> exact hbody

theorem renderContent_aux (db : DB) (enable : Bool) :
    ∀ (songs : List SongRecord) (acc : Str),
      songs.foldl
        (fun acc s =>
          match s.location with
          | none => acc
          | some loc => acc ++ (renderLine db enable loc ++ ['\n'])) acc =
      acc ++ ((songs.filterMap SongRecord.location).map
        (fun loc => renderLine db enable loc ++ ['\n'])).flatten := by
  intro songs
  induction songs with
  | nil => intro acc; simp
  | cons s rest ih =>
    intro acc
    cases hloc : s.location with
    | none => simp [List.foldl_cons, hloc, List.filterMap_cons, ih]
    | some loc =>
      simp only [List.foldl_cons, hloc, List.filterMap_cons, List.map_cons, List.flatten_cons]
      rw [ih]
      simp [List.append_assoc]

theorem renderContent_eq (db : DB) (enable : Bool) (songs : List SongRecord) :
    renderContent db enable songs =
      ((songs.filterMap SongRecord.location).map
        (fun loc => renderLine db enable loc ++ ['\n'])).flatten := by
  have := renderContent_aux db enable songs []
  simpa [renderContent] using this

theorem writeLoop_snd (db : DB) (enable : Bool) (catalog : List PlaylistRef) (root : Str) :
    ∀ (items : List Playlist) (files : List (Str × Str)),
      (writeLoop db enable catalog root files items).2 =
        items.map (fun it => { it with name := sanitizeName it.name }) := by
  intro items
  induction items with
  | nil => intro files; rfl
  | cons item rest ih =>
    intro files
    simp only [writeLoop, List.map_cons]
    rw [ih]

theorem fsGet_set (files : List (Str × Str)) (p c : Str) :
    fsGet (setFile files p c) p = some c := by
  simp [fsGet, setFile, List.find?_cons_of_pos]

theorem retention_fold_sorted (ts : List Str)
    (hsort : ts.Pairwise (fun a b => strLt (dashStrip a) (dashStrip b) = true)) :
    ts.foldl (fun s t => backupSnapshotStep 3 t s) [] = ts.drop (ts.length - 3) := by
  induction ts using List.reverseRecOn with
  | nil => rfl
  | append_singleton l t ih =>
    have hsl : l.Pairwise (fun a b => strLt (dashStrip a) (dashStrip b) = true) :=
      (List.pairwise_append.mp hsort).1
    have hcross : ∀ a ∈ l, strLt (dashStrip a) (dashStrip t) = true := by
      intro a ha
      exact (List.pairwise_append.mp hsort).2.2 a ha t (by simp)
    rw [List.foldl_append, ih hsl]
    simp only [List.foldl_cons, List.foldl_nil]
    have hssub : List.Sublist (l.drop (l.length - 3)) l := List.drop_sublist ..
    have hsorted2 : ((l.drop (l.length - 3)) ++ [t]).Pairwise
        (fun a b => strLt (dashStrip a) (dashStrip b) = true) := by
      rw [List.pairwise_append]
      refine ⟨hsl.sublist hssub, by simp, ?_⟩
      intro a ha b hb
      have hb2 : b = t := by simpa using hb
      subst hb2
      exact hcross a (List.drop_subset _ _ ha)
    have hstep : backupSnapshotStep 3 t (l.drop (l.length - 3)) =
        pruneBackups 3 ((l.drop (l.length - 3)) ++ [t]) := by
      simp [backupSnapshotStep]
    rw [hstep, pruneBackups_sorted _ 3 hsorted2]
    have hslen : (l.drop (l.length - 3)).length = l.length - (l.length - 3) :=
      List.length_drop ..
    have h1 : ((l.drop (l.length - 3)) ++ [t]).length - 3 - (l.drop (l.length - 3)).length = 0 := by
      simp only [List.length_append, List.length_cons, List.length_nil]
      omega
    have h2 : (l ++ [t]).length - 3 - l.length = 0 := by
      simp only [List.length_append, List.length_cons, List.length_nil]
      omega
    rw [List.drop_append_eq_append_drop, List.drop_append_eq_append_drop, h1, h2,
      List.drop_zero]
    congr 1
    rw [List.drop_drop]
    congr 1
    simp only [List.length_append, List.length_cons, List.length_nil]
    omega

theorem mkdir_benign (m : MkdirResult) (h : ∀ e, m ≠ .failed e) :
    m = .ok ∨ m = .fileExists := by
  cases m with
  | ok => exact Or.inl rfl
  | fileExists => exact Or.inr rfl
  | failed e => exact absurd rfl (h e)

theorem backup_playlists_zero (w : BackupWorld)
    (hm : w.mkdirResult = .ok ∨ w.mkdirResult = .fileExists) (hd : w.rmtreeFail = none) :
    backup_playlists w "No Backups".data = .ok [] := by
  obtain ⟨mk, snaps, cr, rf, rt⟩ := w
  simp only at hm hd
  subst hd
  have hbody :
      (match retentionOf "No Backups".data with
        | none => (.error .keyError : Except RunError (List Str))
        | some retention =>
          let afterCopy : Except RunError (List Str) :=
            if 0 < retention then
              match cr with
              | some e => .error (.fsError e)
              | none => .ok (snaps ++ [rt])
            else .ok snaps
          match afterCopy with
          | .error e => .error e
          | .ok backups =>
            if backups.length ≤ retention then .ok backups
            else
              match (none : Option FsError) with
              | some e => .error (.fsError e)
              | none => .ok (pruneBackups retention backups)) =
        .ok [] := by
    have hr : retentionOf "No Backups".data = some 0 := by decide
    rw [hr]
    simp only [Nat.lt_irrefl, if_false]
    by_cases hlen : snaps.length ≤ 0
    · have hz : snaps = [] := List.length_eq_zero.mp (Nat.le_zero.mp hlen)
      subst hz
      simp
    · simp only [hlen, if_false]
      show Except.ok (pruneBackups 0 snaps) = .ok []
      rw [show pruneBackups 0 snaps = pruneAux 0 snaps.length snaps from rfl]
      rw [pruneAux_zero snaps.length snaps (Nat.le_refl _)]
  rcases hm with h | h <;> subst h <;> exact hbody

theorem runOutputs_backup_error (w : BackupWorld) (fs : SrcFS) (files0 : List (Str × Str))
    (db : DB) (settings : Settings) (songs : List Playlist) (e : RunError)
    (h : backup_playlists w settings.retention = .error e) :
    runOutputs w fs files0 db settings songs = SinkOutcome.mk files0 (.error e) songs := by
  simp [runOutputs, h]

theorem runOutputs_backup_ok (w : BackupWorld) (fs : SrcFS) (files0 : List (Str × Str))
    (db : DB) (settings : Settings) (songs : List Playlist) (snaps : List Str)
    (h : backup_playlists w settings.retention = .ok snaps) :
    runOutputs w fs files0 db settings songs =
      SinkOutcome.mk
        (writeLoop db (enableConvert db)
          (scanCatalog fs (rstrip2 settings.dir) (settings.recursive == "Yes".data))
          (rstrip2 settings.dir) files0 songs).1
        (.ok snaps)
        (writeLoop db (enableConvert db)
          (scanCatalog fs (rstrip2 settings.dir) (settings.recursive == "Yes".data))
          (rstrip2 settings.dir) files0 songs).2 := by
  simp [runOutputs, h]

/-! ### Claim theorems -/

/-- Claim C1 (code bug).  The generic `except Exception` handler of the read
loop lacks a `continue`, so an entry whose extraction raises a generic error
is NOT skipped: control falls through and appends the stale `temp_song_dict`
of the previous successful entry.  Concretely, a playlist whose two lines both
resolve to existing files, where the first extraction succeeds with record
`r1` and the second raises a generic error, yields `[r1, r1]` instead of the
`[r1]` required by the claim. -/
theorem extraction_error_appends_previous :
    runInputs
        ⟨some ["p.m3u".data], [],
          (fun p => p == "/u/a.mp3".data || p == "/u/b.mp3".data),
          (fun p => if p == "/pl/p.m3u".data then some "a.mp3\nb.mp3".data else none)⟩
        (fun p => if p == "/u/a.mp3".data then .ok ⟨some "x".data, []⟩
                  else .genericError "boom".data)
        (fun names _ => names) ⟨"/m".data, "/u".data⟩ ⟨"/pl".data, "No".data, [], []⟩
      = .ok [⟨"p".data, [], [⟨some "x".data, []⟩, ⟨some "x".data, []⟩]⟩] := by
  rfl

/-- Claim C2 (counterexample).  `remove_prepend` is not the specified
`stripPrefix`: with the configured (non-empty) prefix `"b"` and path `"aba"`,
`str.replace` removes the mid-string occurrence of the prefix (yielding
`"aa"`), while the specified single-leading-occurrence removal leaves `"aba"`
unchanged. -/
theorem remove_prepend_spec_counterexample :
    "b".data ≠ ([] : Str) ∧
    remove_prepend ⟨"b".data, "u".data⟩ false "aba".data ≠
      stripPrefix_spec "b".data "aba".data := by
  decide

/-- Claim C2 (amended).  `remove_prepend` removes EVERY occurrence of the
configured prefix in the path (Python `str.replace` semantics, left to right
and non-overlapping), then strips leading `/` and then leading `\`
characters; an unconfigured (empty) prefix returns the path unchanged.  In
particular, when the prefix occurs nowhere in the path only the separator
stripping happens, and when it occurs exactly once, at the start, the result
is the stripped remainder — the spec behaviour. -/
theorem remove_prepend_characterization (db : DB) (p rest : Str) :
    (db.local_prepend = [] → remove_prepend db false p = p) ∧
    (db.local_prepend ≠ [] → hasSubstr db.local_prepend p = false →
      remove_prepend db false p = stripSeps p) ∧
    (db.local_prepend ≠ [] → p = db.local_prepend ++ rest →
      hasSubstr db.local_prepend rest = false →
      remove_prepend db false p = stripSeps rest) := by
  refine ⟨?_, ?_, ?_⟩
  · intro h
    simp [remove_prepend, h]
  · intro h1 h2
    simp [remove_prepend, h1, replaceAll_no_occ _ _ h2]
  · intro h1 h2 h3
    subst h2
    simp [remove_prepend, h1, replaceAll_append_self _ _ h1 h3]

/-- Witness for the amended claim C2 at concrete inputs. -/
theorem remove_prepend_characterization_witness :
    remove_prepend ⟨"D:/Music".data, "u".data⟩ false
        ("D:/Music".data ++ "song.mp3".data) = "song.mp3".data ∧
    remove_prepend ⟨"D:/Music".data, "u".data⟩ false "song.mp3".data =
      "song.mp3".data := by
  constructor
  · have h := (remove_prepend_characterization ⟨"D:/Music".data, "u".data⟩
      ("D:/Music".data ++ "song.mp3".data) "song.mp3".data).2.2
      (by decide) rfl (by decide)
    rw [h]
    decide
  · have h := (remove_prepend_characterization ⟨"D:/Music".data, "u".data⟩
      "song.mp3".data []).2.1 (by decide) (by decide)
    rw [h]
    decide

/-- Claim C3 (counterexample).  With a wholly missing playlist root
(`os.listdir` raises, `os.walk` yields nothing) the source-mode run does NOT
fail: the scan exception is caught and logged, and the run completes
normally, returning the empty collection built from the empty catalog. -/
theorem missing_root_counterexample :
    runInputs ⟨none, [], fun _ => false, fun _ => none⟩ (fun _ => .notImplemented)
        (fun names _ => names) ⟨"/m".data, "/u".data⟩ ⟨"/gone".data, "No".data, [], []⟩
      = .ok [] ∧
    ¬ ∃ e, runInputs ⟨none, [], fun _ => false, fun _ => none⟩ (fun _ => .notImplemented)
        (fun names _ => names) ⟨"/m".data, "/u".data⟩ ⟨"/gone".data, "No".data, [], []⟩
      = .error e := by
  refine ⟨rfl, ?_⟩
  rintro ⟨e, h⟩
  exact Except.noConfusion (h.symm.trans rfl)

/-- Claim C3 (amended).  A wholly missing playlist root is NOT fatal to the
job: the scan failure is swallowed (logged) and the run proceeds with an
empty catalog; in source mode the run returns the empty collection.  (Only in
sink mode with a positive retention level does a missing root surface later,
as a fatal `copytree` failure inside the Backup Manager.) -/
theorem missing_root_soft (fs : SrcFS) (tags : Str → ExtractResult)
    (nameFilter : List Str → Str → List Str) (db : DB) (settings : Settings)
    (hl : fs.listing = none) (hw : fs.walk = []) :
    runInputs fs tags nameFilter db settings = .ok [] := by
  simp only [runInputs, scanCatalog, hl, hw]
  cases h : (settings.recursive == "Yes".data) <;>
    simp [runInputsAux]

/-- Witness for the amended claim C3: a concrete missing root in recursive
mode. -/
theorem missing_root_soft_witness :
    runInputs ⟨none, [], fun _ => false, fun _ => none⟩ (fun _ => .notImplemented)
        (fun names _ => names) ⟨"D:/M".data, "/u".data⟩
        ⟨"/pl2".data, "Yes".data, [], []⟩
      = .ok [] :=
  missing_root_soft _ _ _ _ _ rfl rfl

/-- Claim C4 (confirmed).  In sink mode, writing an `AbstractPlaylist` whose
sanitized name matches an existing on-disk playlist (the first catalog match,
opened with mode `"w"`) fully replaces that file: for EVERY prior file state
`files0`, the resulting content at the matched path is exactly the
concatenation of one rendered line (terminated by a newline) per incoming
song that has a `location` field.  Since the right-hand side does not mention
`files0`, no song of the old file can survive into the result. -/
theorem sink_overwrite_replaces (w : BackupWorld) (fs : SrcFS)
    (files0 : List (Str × Str)) (db : DB) (settings : Settings)
    (item : Playlist) (pl : PlaylistRef) (r : Nat)
    (hr : retentionOf settings.retention = some r)
    (hmk : w.mkdirResult = .ok) (hcp : w.copyResult = none) (hrm : w.rmtreeFail = none)
    (hfind : (scanCatalog fs (rstrip2 settings.dir)
        (settings.recursive == "Yes".data)).find?
        (fun c => c.name == sanitizeName item.name) = some pl) :
    fsGet (runOutputs w fs files0 db settings [item]).files pl.path =
      some (((item.songs.filterMap SongRecord.location).map
        (fun loc => renderLine db (enableConvert db) loc ++ ['\n'])).flatten) := by
  have hb := backup_playlists_benign w settings.retention r (Or.inl hmk) hr hcp hrm
  rw [runOutputs_backup_ok w fs files0 db settings [item] _ hb]
  show fsGet (writeLoop db (enableConvert db) _ _ files0 [item]).1 pl.path = _
  simp only [writeLoop, hfind]
  rw [fsGet_set, renderContent_eq]

/-- Witness for claim C4: overwriting an existing playlist that previously
held `old.mp3` with a playlist holding one located song and one
location-less song leaves exactly the one rendered line. -/
theorem sink_overwrite_replaces_witness :
    fsGet (runOutputs ⟨.ok, [], none, none, "t1".data⟩
        ⟨some ["Mix.m3u".data], [], fun _ => false, fun _ => none⟩
        [("/pl/Mix.m3u".data, "old.mp3\n".data)]
        ⟨"D:/Music".data, "/mnt/music".data⟩
        ⟨"/pl".data, "No".data, [], "No Backups".data⟩
        [⟨"Mix".data, [], [⟨some "/mnt/music/a.mp3".data, []⟩, ⟨none, []⟩]⟩]).files
      "/pl/Mix.m3u".data
      = some "D:\\Music\\a.mp3\n".data := by
  exact (sink_overwrite_replaces _ _ _ _ _ _ ⟨"Mix".data, "/pl/Mix.m3u".data⟩ 0
    (by decide) rfl rfl rfl (by decide)).trans (by decide)

/-- Claim C5 (confirmed).  In the Backup Manager, a `FileExistsError` from
creating the backup root is swallowed and the run continues; any filesystem
failure of the snapshot copy (`copytree`) or of the prune loop (`rmtree`)
propagates out of `backup_playlists` and aborts the sink-mode run before any
playlist file is written (the file state is exactly the incoming one). -/
theorem backup_failure_semantics (w : BackupWorld) (fs : SrcFS)
    (files0 : List (Str × Str)) (db : DB) (settings : Settings)
    (songs : List Playlist) (r : Nat)
    (hr : retentionOf settings.retention = some r) :
    ((w.mkdirResult = .fileExists ∧ w.copyResult = none ∧ w.rmtreeFail = none) →
      ∃ snaps, (runOutputs w fs files0 db settings songs).backup = .ok snaps) ∧
    (∀ e, (∀ e2, w.mkdirResult ≠ .failed e2) → w.copyResult = some e → 0 < r →
      (runOutputs w fs files0 db settings songs).backup = .error (.fsError e) ∧
      (runOutputs w fs files0 db settings songs).files = files0) ∧
    (∀ e, (∀ e2, w.mkdirResult ≠ .failed e2) → w.copyResult = none →
      w.rmtreeFail = some e →
      r < (if 0 < r then w.snapshots.length + 1 else w.snapshots.length) →
      (runOutputs w fs files0 db settings songs).backup = .error (.fsError e) ∧
      (runOutputs w fs files0 db settings songs).files = files0) := by
  refine ⟨?_, ?_, ?_⟩
  · rintro ⟨h1, h2, h3⟩
    have hb := backup_playlists_benign w settings.retention r (Or.inr h1) hr h2 h3
    rw [runOutputs_backup_ok w fs files0 db settings songs _ hb]
    exact ⟨_, rfl⟩
  · intro e hnf h2 hpos
    have hb := backup_playlists_copy_fail w settings.retention r e
      (mkdir_benign _ hnf) hr hpos h2
    rw [runOutputs_backup_error w fs files0 db settings songs _ hb]
    exact ⟨rfl, rfl⟩
  · intro e hnf h2 h3 hcount
    have hb := backup_playlists_rmtree_fail w settings.retention r e
      (mkdir_benign _ hnf) hr h2 h3 hcount
    rw [runOutputs_backup_error w fs files0 db settings songs _ hb]
    exact ⟨rfl, rfl⟩

/-- Witness for claim C5: a concrete swallowed `FileExistsError`, a concrete
fatal copy failure, and a concrete fatal prune failure. -/
theorem backup_failure_semantics_witness :
    (∃ snaps, (runOutputs ⟨.fileExists, [], none, none, "t".data⟩
        ⟨some [], [], fun _ => false, fun _ => none⟩ [] ⟨"/m".data, "/u".data⟩
        ⟨"/pl".data, "No".data, [], "3 Backups".data⟩ []).backup = .ok snaps) ∧
    ((runOutputs ⟨.ok, [], some ⟨3⟩, none, "t".data⟩
        ⟨some [], [], fun _ => false, fun _ => none⟩
        [("/pl/a.m3u".data, "keep\n".data)] ⟨"/m".data, "/u".data⟩
        ⟨"/pl".data, "No".data, [], "3 Backups".data⟩ []).backup
        = .error (.fsError ⟨3⟩) ∧
      (runOutputs ⟨.ok, [], some ⟨3⟩, none, "t".data⟩
        ⟨some [], [], fun _ => false, fun _ => none⟩
        [("/pl/a.m3u".data, "keep\n".data)] ⟨"/m".data, "/u".data⟩
        ⟨"/pl".data, "No".data, [], "3 Backups".data⟩ []).files
        = [("/pl/a.m3u".data, "keep\n".data)]) ∧
    ((runOutputs ⟨.ok, ["s-1".data], none, some ⟨4⟩, "t".data⟩
        ⟨some [], [], fun _ => false, fun _ => none⟩
        [("/pl/a.m3u".data, "keep\n".data)] ⟨"/m".data, "/u".data⟩
        ⟨"/pl".data, "No".data, [], "No Backups".data⟩ []).backup
        = .error (.fsError ⟨4⟩) ∧
      (runOutputs ⟨.ok, ["s-1".data], none, some ⟨4⟩, "t".data⟩
        ⟨some [], [], fun _ => false, fun _ => none⟩
        [("/pl/a.m3u".data, "keep\n".data)] ⟨"/m".data, "/u".data⟩
        ⟨"/pl".data, "No".data, [], "No Backups".data⟩ []).files
        = [("/pl/a.m3u".data, "keep\n".data)]) := by
  refine ⟨?_, ?_, ?_⟩
  · exact (backup_failure_semantics _ _ _ _ _ _ 3 (by decide)).1 ⟨rfl, rfl, rfl⟩
  · exact (backup_failure_semantics _ _ _ _ _ _ 3 (by decide)).2.1 ⟨3⟩
      (fun _ h => MkdirResult.noConfusion h) rfl (by decide)
  · exact (backup_failure_semantics _ _ _ _ _ _ 0 (by decide)).2.2 ⟨4⟩
      (fun _ h => MkdirResult.noConfusion h) rfl rfl (by decide)

/-- Claim C6 (confirmed).  One successful sink run appends the new snapshot
and prunes with retention 3 (`backup_playlists` returns exactly
`backupSnapshotStep`), and after any number N with 3 or fewer or more runs
whose dash-stripped timestamps are strictly increasing, starting from an
empty backup directory, exactly the 3 most recent snapshots remain, in
particular exactly 3 once N is at least 3: the fold of the per-run step
equals the suffix of the last 3 timestamps. -/
theorem backup_retention_policy (ts : List Str)
    (hsort : ts.Pairwise (fun a b => strLt (dashStrip a) (dashStrip b) = true))
    (hN : 3 ≤ ts.length) :
    (∀ w : BackupWorld, w.mkdirResult = .ok → w.copyResult = none →
      w.rmtreeFail = none →
      backup_playlists w "3 Backups".data =
        .ok (backupSnapshotStep 3 w.runtime w.snapshots)) ∧
    ts.foldl (fun s t => backupSnapshotStep 3 t s) [] = ts.drop (ts.length - 3) ∧
    (ts.foldl (fun s t => backupSnapshotStep 3 t s) []).length = 3 := by
  refine ⟨?_, retention_fold_sorted ts hsort, ?_⟩
  · intro w h1 h2 h3
    exact backup_playlists_benign w _ 3 (Or.inl h1) (by decide) h2 h3
  · rw [retention_fold_sorted ts hsort, List.length_drop]
    omega

/-- Witness for claim C6: four runs with increasing timestamps keep exactly
the last three snapshots, and the snapshot step is what `backup_playlists`
performs. -/
theorem backup_retention_policy_witness :
    (["a-1".data, "a-2".data, "a-3".data, "a-4".data].foldl
        (fun s t => backupSnapshotStep 3 t s) [])
      = ["a-2".data, "a-3".data, "a-4".data] ∧
    backup_playlists
        ⟨.ok, ["a-2".data, "a-3".data, "a-4".data], none, none, "a-5".data⟩
        "3 Backups".data
      = .ok (backupSnapshotStep 3 "a-5".data
          ["a-2".data, "a-3".data, "a-4".data]) := by
  have h := backup_retention_policy
    ["a-1".data, "a-2".data, "a-3".data, "a-4".data] (by decide) (by decide)
  refine ⟨?_, h.1 ⟨.ok, ["a-2".data, "a-3".data, "a-4".data], none, none,
    "a-5".data⟩ rfl rfl rfl⟩
  rw [h.2.1]
  decide

/-- Claim C7 (confirmed).  With retention level zero (`"No Backups"`) the
sink run takes no new snapshot — the conclusion holds with NO hypothesis on
the would-be outcome of `copytree`, so the copy is never attempted — but the
prune loop still runs and deletes every pre-existing snapshot, leaving an
empty backup directory. -/
theorem retention_zero_prunes_all (w : BackupWorld) (fs : SrcFS)
    (files0 : List (Str × Str)) (db : DB) (settings : Settings)
    (songs : List Playlist)
    (hset : settings.retention = "No Backups".data)
    (hmk : ∀ e, w.mkdirResult ≠ .failed e) (hrm : w.rmtreeFail = none) :
    (runOutputs w fs files0 db settings songs).backup = .ok [] := by
  have hb : backup_playlists w settings.retention = .ok [] := by
    rw [hset]
    exact backup_playlists_zero w (mkdir_benign _ hmk) hrm
  rw [runOutputs_backup_ok w fs files0 db settings songs _ hb]

/-- Witness for claim C7: two pre-existing snapshots are pruned away while a
copy failure is injected (and never triggered, since no copy happens). -/
theorem retention_zero_prunes_all_witness :
    (runOutputs ⟨.fileExists, ["t-1".data, "t-2".data], some ⟨9⟩, none, "t-3".data⟩
        ⟨some [], [], fun _ => false, fun _ => none⟩ [] ⟨"/m".data, "/u".data⟩
        ⟨"/pl".data, "No".data, [], "No Backups".data⟩ []).backup = .ok [] :=
  retention_zero_prunes_all _ _ _ _ _ _ rfl
    (fun _ h => MkdirResult.noConfusion h) rfl

/-- Claim C8 (counterexample).  The round trip fails for paths that begin
with a separator even when the path contains no occurrence of the configured
prefix: with `L = "a"` and `p = "/b"`, stripping the prefix from `addPrefix`
also strips the leading slash, returning `"b"` instead of `"/b"`. -/
theorem roundtrip_counterexample :
    "a".data ≠ ([] : Str) ∧
    hasSubstr "a".data "/b".data = false ∧
    remove_prepend ⟨"a".data, "u".data⟩ false (addPrefix "/b".data "a".data)
      ≠ "/b".data := by
  decide

/-- Claim C8 (amended).  For every configured (non-empty) local prefix `L`
and every path `p` that contains no occurrence of `L` as a substring AND does
not begin with `/` or `\`, stripping the local prefix from `addPrefix(p, L)`
recovers `p`. -/
theorem roundtrip_recovers (L O p : Str) (hL : L ≠ [])
    (hsub : hasSubstr L p = false)
    (h1 : p.head? ≠ some '/') (h2 : p.head? ≠ some '\\') :
    remove_prepend ⟨L, O⟩ false (addPrefix p L) = p := by
  have hstep : remove_prepend ⟨L, O⟩ false (L ++ p) =
      stripSeps (replaceAll L (L ++ p)) := by
    simp [remove_prepend, hL]
  rw [show addPrefix p L = L ++ p from rfl, hstep,
    replaceAll_append_self L p hL hsub, stripSeps_no_sep p h1 h2]

/-- Witness for the amended claim C8 at concrete inputs. -/
theorem roundtrip_recovers_witness :
    remove_prepend ⟨"ab".data, "u".data⟩ false (addPrefix "cd".data "ab".data)
      = "cd".data :=
  roundtrip_recovers "ab".data "u".data "cd".data (by decide) (by decide)
    (by decide) (by decide)

/-- Claim C9 (confirmed).  A line beginning with `#` is skipped by the
explicit comment check, and a blank line resolves (after prefix removal,
conversion, and `os.path.join` with the orchestrator prepend) to the empty
path, to the prepend directory itself, or to the prepend followed by a
trailing separator — none of which can be a regular file on the modelled
POSIX filesystem (hypothesis `hinv`) — so it is skipped by the `isfile`
check.  In both cases the read state, and hence the playlist's `songs`
sequence, is returned unchanged. -/
theorem comments_and_blanks_no_entry (fs : SrcFS) (tags : Str → ExtractResult)
    (db : DB) (enable : Bool) (st : ReadState) (line : Str)
    (hinv : ∀ p, fs.isfile p = true → p ≠ [] ∧ p.getLast? ≠ some '/')
    (hline : isPre "#".data line = true ∨ line = []) :
    processLine fs tags db enable st line = .ok st := by
  rcases hline with h | h
  · simp [processLine, h]
  · subst h
    have hp1 : remove_prepend db false [] = [] := by
      by_cases hc : db.local_prepend = []
      · simp [remove_prepend, hc]
      · simp only [remove_prepend, if_pos rfl, if_pos hc]
        rfl
    have hp2 : convert_path enable false ([] : Str) = [] := by
      cases enable <;> simp [convert_path]
    have hfalse : fs.isfile (osJoin db.ultrasonics_prepend []) ≠ true := by
      intro hf
      obtain ⟨hne, hlast⟩ := hinv _ hf
      have h0 : isPre "/".data ([] : Str) = false := rfl
      by_cases ha : db.ultrasonics_prepend = []
      · apply hne
        simp [osJoin, h0, ha]
      · by_cases hb : db.ultrasonics_prepend.getLast? = some '/'
        · apply hlast
          simp [osJoin, h0, ha, hb]
        · apply hlast
          simp [osJoin, h0, ha, hb, List.getLast?_concat]
    have hfile : fs.isfile (osJoin db.ultrasonics_prepend []) = false := by
      cases hv : fs.isfile (osJoin db.ultrasonics_prepend []) with
      | false => rfl
      | true => exact absurd hv hfalse
    have hpre : isPre "#".data ([] : Str) = false := rfl
    simp only [processLine, hpre, Bool.false_eq_true, if_false, hp1, hp2, hfile]

/-- Witness for claim C9: a comment line and a blank line on a filesystem
with no files at all. -/
theorem comments_and_blanks_no_entry_witness :
    processLine ⟨none, [], fun _ => false, fun _ => none⟩ (fun _ => .notImplemented)
        ⟨"/m".data, "/u".data⟩ false ⟨none, []⟩ "#EXTM3U".data = .ok ⟨none, []⟩ ∧
    processLine ⟨none, [], fun _ => false, fun _ => none⟩ (fun _ => .notImplemented)
        ⟨"/m".data, "/u".data⟩ false ⟨none, []⟩ [] = .ok ⟨none, []⟩ := by
  constructor
  · exact comments_and_blanks_no_entry _ _ _ _ _ _
      (fun p hp => Bool.noConfusion hp) (Or.inl (by decide))
  · exact comments_and_blanks_no_entry _ _ _ _ _ _
      (fun p hp => Bool.noConfusion hp) (Or.inr rfl)

/-- Claim C10 (confirmed).  The outputs branch mutates the caller-provided
`songs_dict` in place: once the backup has succeeded, each incoming
playlist's `name` is overwritten with its sanitized form (the `re.sub`
result) before the write, and the caller-visible `songs_dict` after the run
carries exactly these sanitized names (all other fields untouched). -/
theorem sink_mutates_names (w : BackupWorld) (fs : SrcFS)
    (files0 : List (Str × Str)) (db : DB) (settings : Settings)
    (songs : List Playlist) (r : Nat)
    (hr : retentionOf settings.retention = some r)
    (hmk : w.mkdirResult = .ok) (hcp : w.copyResult = none) (hrm : w.rmtreeFail = none) :
    (runOutputs w fs files0 db settings songs).songs =
      songs.map (fun it => { it with name := sanitizeName it.name }) := by
  have hb := backup_playlists_benign w settings.retention r (Or.inl hmk) hr hcp hrm
  rw [runOutputs_backup_ok w fs files0 db settings songs _ hb]
  exact writeLoop_snd _ _ _ _ songs files0

/-- Witness for claim C10: a name containing a colon is observed sanitized by
the caller after the run. -/
theorem sink_mutates_names_witness :
    (runOutputs ⟨.ok, [], none, none, "t".data⟩
        ⟨some [], [], fun _ => false, fun _ => none⟩ [] ⟨"/m".data, "/u".data⟩
        ⟨"/pl".data, "No".data, [], "No Backups".data⟩
        [⟨"My: List".data, [], []⟩]).songs
      = [⟨"MyList".data, [], []⟩] :=
  (sink_mutates_names _ _ _ _ _ _ 0 (by decide) rfl rfl rfl).trans (by decide)
